import Mathlib

/-
Verification of the sweep controller in pyrpl/network_analyzer.py
(class NetworkAnalyzer).  The Python class drives a frequency sweep
against an IQ demodulator module: it computes a frequency axis, arms the
demodulator, paces point acquisition by wall-clock time, normalizes the
raw complex samples and optionally stabilizes the drive amplitude.

Shallow embedding conventions:
  - Python floats are modelled as real numbers.
  - The complex demodulated sample is modelled as a pair of reals.
  - The external IQ hardware module (redpitaya_modules, not part of this
    repository) is modelled by quantization functions bundled in Hw:
    every register write stores the quantized value, every read returns
    the stored value.  Witnesses instantiate them with the identity.
  - Python attributes that do not exist before setup() has run
    (x, current_point, time_last_point, _rescale, _na_sleepcycles) are
    Option-valued; reading a missing one raises AttributeError, which is
    modelled as Except.error Err.attributeError.
  - Calls to time() are modelled by passing the current wall-clock value
    as an explicit argument; inside the values() generator loop a time
    tape (a function from a call counter to the clock value) is consumed
    in program order.
  - A raised Python exception is modelled as Except.error; the model
    result of an erroring call drops partial attribute mutations, which
    is sound for the claims below because the values() finalizer
    overwrites the only fields (iq amplitude and frequency) a partially
    completed call could have touched.
-/

/-- Exceptions that the embedded code can raise.  NotReadyError is
imported by the source (from redpitaya_modules) but the only line that
would raise it is commented out; the constructor is kept so that the
distinction is expressible. -/
inductive Err where
  | attributeError
  | nameError
  | indexError
  | notReadyError
  deriving DecidableEq

/-- Registers of the external IQ demodulator module that the network
analyzer reads or writes.  bandwidth models iq.bandwidth[0], the first
filter cutoff, the only one the analyzer ever reads; na_averages is the
iq._na_averages attribute the analyzer stores on the module. -/
structure IQ where
  frequency : ℝ
  bandwidth : ℝ
  amplitude : ℝ
  na_averages : Option ℤ


/-- Hardware model for the external demodulator: each register write
stores the quantized requested value (hardware accepts a discrete set),
and lpfbits is the _LPFBITS fixed-point scale constant. -/
structure Hw where
  qFreq : ℝ → ℝ
  qBw : ℝ → ℝ
  qAmp : ℝ → ℝ
  lpfbits : ℕ

/-- The identity hardware: every requested value is accepted exactly,
_LPFBITS = 1.  Used by concrete witnesses. -/
def hwId : Hw := ⟨id, id, id, 1⟩

/-- State of one NetworkAnalyzer instance: the persisted configuration
fields assigned in __init__ and setup, the mirrored _amplitude readback,
and the sweep state.  Fields that Python creates only inside setup() are
Option-valued (none = attribute missing). -/
structure NetworkAnalyzer where
  iq : IQ
  start : ℝ
  stop : ℝ
  points : ℕ
  avg : ℝ
  inputSig : String
  output_direct : String
  acbandwidth : ℝ
  sleeptimes : ℝ
  logscale : Bool
  stabilize : Option ℝ
  maxamplitude : ℝ
  amplitudeStored : ℝ
  setupDone : Bool
  x : Option (List ℝ)
  current_point : Option ℕ
  time_last_point : Option ℝ
  rescaleStored : Option ℝ
  na_sleepcycles : Option ℤ


namespace NetworkAnalyzer

/-- Scalar multiplication of the complex sample pair, the model of
multiplying the numpy complex y by a real factor. -/
def cmul (c : ℝ) (y : ℝ × ℝ) : ℝ × ℝ := (c * y.1, c * y.2)

/-- np.linspace(a, b, n, endpoint=True): n equally spaced values from a
to b inclusive; for n = 1 the step divisor is zero and the single value
is a, as numpy returns. -/
noncomputable def linspace (a b : ℝ) (n : ℕ) : List ℝ :=
  (List.range n).map (fun i : ℕ => a + (i : ℝ) * ((b - a) / ((n : ℝ) - 1)))

/-- np.logspace(e1, e2, n, endpoint=True): ten to the power of each
linspace value. -/
noncomputable def logspace (e1 e2 : ℝ) (n : ℕ) : List ℝ :=
  (linspace e1 e2 n).map (fun e => (10 : ℝ) ^ e)

/-- np.log10. -/
noncomputable def log10 (v : ℝ) : ℝ := Real.logb 10 v

/-- The frequency axis self.x computed by setup (source lines 136-143):
logspace between the log10 of the bounds when logscale is set, linspace
otherwise. -/
noncomputable def naAxis (logscale : Bool) (start stop : ℝ) (points : ℕ) : List ℝ :=
  if logscale then logspace (log10 start) (log10 stop) points
  else linspace start stop points

/-- The amplitude property setter (source lines 212-216): push the
requested value to the iq module, then store the value the module
reports back into _amplitude. -/
def setAmplitude (hw : Hw) (s : NetworkAnalyzer) (val : ℝ) : NetworkAnalyzer :=
  let s := { s with iq := { s.iq with amplitude := hw.qAmp val } }
  { s with amplitudeStored := s.iq.amplitude }

/-- The rbw property setter (source lines 199-206): a scalar becomes the
pair [val, val] pushed to iq.bandwidth; the model tracks the first
cutoff, which is the only one ever read back. -/
def setRbw (hw : Hw) (s : NetworkAnalyzer) (val : ℝ) : NetworkAnalyzer :=
  { s with iq := { s.iq with bandwidth := hw.qBw val } }

/-- time_per_point property (source lines 218-220):
1.0 / self.rbw * (self.avg + self.sleeptimes), where self.rbw reads back
iq.bandwidth[0], the discretized bandwidth. -/
noncomputable def time_per_point (s : NetworkAnalyzer) : ℝ :=
  1 / s.iq.bandwidth * (s.avg + s.sleeptimes)

/-- The amplitude property getter (source lines 208-210): returns the
stored _amplitude readback. -/
def amplitude (s : NetworkAnalyzer) : ℝ := s.amplitudeStored

/-- The state after __init__ (source lines 28-44).  The iq module comes
from the shared pool with unknown register contents iq0; __init__ then
runs the rbw setter with 200 and the amplitude setter with 0.01.  x,
current_point, time_last_point, _rescale and _na_sleepcycles do not
exist yet. -/
def initState (hw : Hw) (iq0 : IQ) : NetworkAnalyzer :=
  let s : NetworkAnalyzer :=
    { iq := iq0
      start := 200
      stop := 50000
      points := 1001
      avg := 1
      inputSig := "adc1"
      output_direct := "off"
      acbandwidth := 0
      sleeptimes := 0.5
      logscale := false
      stabilize := none
      maxamplitude := 1.0
      amplitudeStored := 0
      setupDone := false
      x := none
      current_point := none
      time_last_point := none
      rescaleStored := none
      na_sleepcycles := none }
  let s := setRbw hw s 200
  setAmplitude hw s 0.01

/-- Result of one get_current_point call: the (frequency, response,
amplitude) triple together with the duration the call slept. -/
structure Point where
  x : ℝ
  y : ℝ × ℝ
  amp : ℝ
  slept : ℝ

/-- get_current_point (source lines 222-242).  now is the value returned
by the single time() call, raw the iq._nadata sample.  Blocks for the
remaining fraction of time_per_point if nonnegative, reads frequency,
sample and amplitude, then normalizes by _rescale and, unless it is
exactly zero, by the amplitude.  Accessing time_last_point (line 230) or
_rescale (lines 239/241) before setup raises AttributeError. -/
noncomputable def get_current_point (s : NetworkAnalyzer) (now : ℝ)
    (raw : ℝ × ℝ) : Except Err Point :=
  match s.time_last_point with
  | none => .error .attributeError
  | some tlp =>
    let duration := now - tlp
    let remaining := s.time_per_point - duration
    let slept := if remaining ≥ 0 then remaining else 0
    let x := s.iq.frequency
    let amp := s.amplitude
    match s.rescaleStored with
    | none => .error .attributeError
    | some rescale =>
      let y := if amp = 0 then cmul rescale raw else cmul (rescale / amp) raw
      .ok ⟨x, y, amp, slept⟩

/-- prepare_for_next_point (source lines 244-259).  now is the value of
the time() call on line 259.  Returns the new state together with the
amplitude value pushed to iq.amplitude on line 255.

When stabilization is enabled the source line 250 reads the name y,
which is not defined anywhere in scope (the parameter is named
last_normalized_val), so Python raises NameError before anything else
happens; the branch is modelled accordingly. -/
noncomputable def prepare_for_next_point (hw : Hw) (s : NetworkAnalyzer)
    (last_normalized_val : ℝ × ℝ) (now : ℝ) :
    Except Err (NetworkAnalyzer × ℝ) :=
  match s.stabilize with
  | some _ => .error .nameError
  | none =>
    let amplitude_next := s.amplitude
    let amplitude_next :=
      if amplitude_next > s.maxamplitude then s.maxamplitude else amplitude_next
    let s := { s with iq := { s.iq with amplitude := hw.qAmp amplitude_next } }
    match s.current_point with
    | none => .error .attributeError
    | some cp =>
      let cp := cp + 1
      let s := { s with current_point := some cp }
      if cp < s.points then
        match s.x with
        | none => .error .attributeError
        | some ax =>
          if h : cp < ax.length then
            .ok ({ s with
                    iq := { s.iq with frequency := hw.qFreq (ax.get ⟨cp, h⟩) }
                    time_last_point := some now }, amplitude_next)
          else .error .indexError
      else .ok ({ s with time_last_point := some now }, amplitude_next)

/-- The optional keyword arguments of setup (source lines 81-94): none
means the option was not passed and the persisted field is kept.  For
stabilize the payload is itself an Option because the persisted value is
either False (disabled) or a float target.  rbw is modelled as a scalar;
the two-element list form only configures the second filter stage of the
external module, which the analyzer never reads back. -/
structure SetupOpts where
  start : Option ℝ := none
  stop : Option ℝ := none
  points : Option ℕ := none
  rbw : Option ℝ := none
  avg : Option ℝ := none
  amplitude : Option ℝ := none
  inputSig : Option String := none
  output_direct : Option String := none
  acbandwidth : Option ℝ := none
  sleeptimes : Option ℝ := none
  logscale : Option Bool := none
  stabilize : Option (Option ℝ) := none
  maxamplitude : Option ℝ := none

/-- The merge part of setup (source lines 120-132): every option that is
not None overwrites its persisted field.  rbw and amplitude go through
their property setters, which push to the iq module. -/
def mergeConfig (hw : Hw) (s : NetworkAnalyzer) (o : SetupOpts) :
    NetworkAnalyzer :=
  let s :=
    { s with
        start := o.start.getD s.start
        stop := o.stop.getD s.stop
        points := o.points.getD s.points
        avg := o.avg.getD s.avg
        inputSig := o.inputSig.getD s.inputSig
        output_direct := o.output_direct.getD s.output_direct
        acbandwidth := o.acbandwidth.getD s.acbandwidth
        sleeptimes := o.sleeptimes.getD s.sleeptimes
        logscale := o.logscale.getD s.logscale
        stabilize := o.stabilize.getD s.stabilize
        maxamplitude := o.maxamplitude.getD s.maxamplitude }
  let s := match o.rbw with
    | some r => setRbw hw s r
    | none => s
  match o.amplitude with
  | some a => setAmplitude hw s a
  | none => s

/-- The arming tail of setup (source lines 145-181) once the axis is
known to be nonempty with first point f:  clip the amplitude readback
to the absolute maxamplitude, push the consolidated parameter set to the
iq module (line 150; gain, phase and routing are registers of the
external module with no read path back into the analyzer and are not
tracked), store the derived cycle counts and _rescale, reset the cursor,
push the first frequency again (line 180, the write that triggers
acquisition) and record the time() value of line 181. -/
noncomputable def armFinish (hw : Hw) (s : NetworkAnalyzer) (f : ℝ)
    (now : ℝ) : NetworkAnalyzer :=
  let ma := |s.maxamplitude|
  let a := |s.amplitude|
  let a := if a > ma then ma else a
  let s := { s with iq := { s.iq with
                              frequency := hw.qFreq f
                              bandwidth := hw.qBw s.iq.bandwidth
                              amplitude := hw.qAmp a } }
  let s := { s with iq := { s.iq with
    na_averages := some (round ((125e6 : ℝ) / s.iq.bandwidth * s.avg)) } }
  let s := { s with
    na_sleepcycles := some (round ((125e6 : ℝ) / s.iq.bandwidth * s.sleeptimes)) }
  let s := { s with rescaleStored := some ((2 : ℝ) ^ (-(hw.lpfbits : ℤ)) * 4) }
  let s := { s with current_point := some 0 }
  let s := { s with iq := { s.iq with frequency := hw.qFreq f } }
  { s with time_last_point := some now }

/-- setup (source lines 81-181): merge the options, mark _setup, compute
the axis, then arm.  With points = 0 the axis is empty and line 150
reads self.x[0], raising IndexError. -/
noncomputable def setup (hw : Hw) (s : NetworkAnalyzer) (o : SetupOpts)
    (now : ℝ) : Except Err NetworkAnalyzer :=
  let s := mergeConfig hw s o
  let s := { s with setupDone := true }
  let ax := naAxis s.logscale s.start s.stop s.points
  let s := { s with x := some ax }
  match ax with
  | [] => .error .indexError
  | f :: _ => .ok (armFinish hw s f now)

/-- How one run of the values() generator ended: the while loop finished
normally, the consumer closed the generator after receiving some yields,
an exception propagated out of the loop body, or the step fuel of the
model ran out (an artifact state the top level never reaches, since the
loop advances current_point by one per iteration). -/
inductive ExitKind where
  | completed
  | abandoned
  | errored (e : Err)
  | outOfFuel
  deriving DecidableEq

/-- Observable outcome of the try block of values(): the yielded
triples in order, the analyzer state when the block ended, and how it
ended. -/
structure RunResult where
  yields : List (ℝ × (ℝ × ℝ) × ℝ)
  state : NetworkAnalyzer
  exit : ExitKind

/-- The while loop of values() (source lines 277-285).  tape is the
wall-clock sequence, indexed by time() call counter t; sam is the
iq._nadata sample sequence, indexed by read counter n; abandon = some k
means the consumer closes the generator when it has received k yields.
Each iteration calls time() once inside get_current_point (line 229),
once more for the zero-span frequency substitution (line 283) and once
in prepare_for_next_point (line 259). -/
noncomputable def valuesAux (hw : Hw) (tape : ℕ → ℝ) (sam : ℕ → ℝ × ℝ)
    (abandon : Option ℕ) :
    ℕ → NetworkAnalyzer → ℕ → ℕ → List (ℝ × (ℝ × ℝ) × ℝ) → RunResult
  | fuel, s, t, n, acc =>
    match s.current_point with
    | none => ⟨acc.reverse, s, .errored .attributeError⟩
    | some cp =>
      if cp < s.points then
        match fuel with
        | 0 => ⟨acc.reverse, s, .outOfFuel⟩
        | fuel + 1 =>
          match get_current_point s (tape t) (sam n) with
          | .error e => ⟨acc.reverse, s, .errored e⟩
          | .ok g =>
            let x := if s.start = s.stop then tape (t + 1) else g.x
            let tPrep := if s.start = s.stop then t + 2 else t + 1
            match prepare_for_next_point hw s g.y (tape tPrep) with
            | .error e => ⟨acc.reverse, s, .errored e⟩
            | .ok (s', _) =>
              let acc' := (x, g.y, g.amp) :: acc
              if abandon = some acc'.length then ⟨acc'.reverse, s', .abandoned⟩
              else valuesAux hw tape sam abandon fuel s' (tPrep + 1) (n + 1) acc'
      else ⟨acc.reverse, s, .completed⟩

/-- The finally clause of values() (source lines 289-291): push
amplitude 0 to the iq module, then reset its frequency to self.x[0]
(which itself raises if x is missing or empty). -/
noncomputable def finallyClause (hw : Hw) (s : NetworkAnalyzer) :
    Except Err NetworkAnalyzer :=
  let s := { s with iq := { s.iq with amplitude := hw.qAmp 0 } }
  match s.x with
  | none => .error .attributeError
  | some [] => .error .indexError
  | some (f :: _) => .ok { s with iq := { s.iq with frequency := hw.qFreq f } }

/-- Result of a whole run of the values() generator: the yields, how the
try block ended, and the state after the finally clause ran. -/
structure GenRun where
  yields : List (ℝ × (ℝ × ℝ) × ℝ)
  exit : ExitKind
  final : Except Err NetworkAnalyzer

/-- One run of the values() generator (source lines 261-291), starting
from state s with the time() call counter at t0.  The finally clause
runs on every exit path of the try block: normal completion, early close
by the consumer, and any propagating exception.  s.points steps of fuel
are enough because each loop iteration advances current_point by one
towards points. -/
noncomputable def valuesRun (hw : Hw) (tape : ℕ → ℝ) (sam : ℕ → ℝ × ℝ)
    (abandon : Option ℕ) (s : NetworkAnalyzer) (t0 : ℕ) : GenRun :=
  let r := valuesAux hw tape sam abandon s.points s t0 0 []
  ⟨r.yields, r.exit, finallyClause hw r.state⟩

/-- Concrete iq register contents used by witnesses. -/
def iqInit : IQ := ⟨0, 1, 0, none⟩

/-- A concrete armed analyzer state, as after a successful zero-span
setup with a single point, used by witnesses. -/
def sArmed : NetworkAnalyzer :=
  { iq := ⟨0, 1, 1, none⟩
    start := 0
    stop := 0
    points := 1
    avg := 1
    inputSig := "adc1"
    output_direct := "off"
    acbandwidth := 0
    sleeptimes := 0
    logscale := false
    stabilize := none
    maxamplitude := 1
    amplitudeStored := 1
    setupDone := true
    x := some [0]
    current_point := some 0
    time_last_point := some 0
    rescaleStored := some 1
    na_sleepcycles := some 0 }

/-- The armed state with stabilization enabled at target 1, the
configuration on which the source bug of claim C2 fires. -/
def sStab : NetworkAnalyzer := { sArmed with stabilize := some 1 }

/-- Concrete all-options setup call for the C9 witness. -/
def oAll : SetupOpts :=
  { start := some 1
    stop := some 1
    points := some 1
    rbw := some 2
    avg := some 1
    amplitude := some 1
    inputSig := some "a"
    output_direct := some "b"
    acbandwidth := some 0
    sleeptimes := some 0
    logscale := some false
    stabilize := some none
    maxamplitude := some 2 }

/-- C10: writing the public amplitude property pushes the requested
value to the demodulator and stores the value the demodulator reports
back, so subsequent reads return the hardware-accepted value hw.qAmp v
(which differs from v whenever the hardware quantizes or clips). -/
theorem c10_amplitude_setter_readback (hw : Hw) (s : NetworkAnalyzer) (v : ℝ) :
    (setAmplitude hw s v).amplitude = hw.qAmp v ∧
    (setAmplitude hw s v).iq.amplitude = hw.qAmp v :=
  ⟨rfl, rfl⟩

/-- C2, behaviour of the code at the failing input: with stabilization
enabled (stabilize = 1) the very first prepare_for_next_point call
raises NameError, because source line 250 divides by np.abs(y) where y
is an undefined name (the parameter is last_normalized_val).  The
stabilization law T / |r| claimed by the spec is therefore never
computed on any stabilized sweep. -/
theorem c2_stabilize_raises_name_error :
    prepare_for_next_point hwId sStab (1, 0) 1 = .error .nameError := rfl

/-- C8, counterexample: fetching a point on a freshly constructed,
never-setup analyzer does not fail with the dedicated not-armed error
(NotReadyError, the error the spec calls NotArmedError); the line that
would raise it is commented out in curve (source lines 330-331). -/
theorem c8_counterexample :
    get_current_point (initState hwId iqInit) 0 (0, 0) ≠
      Except.error Err.notReadyError := by
  intro h
  have h' : Except.error (ε := Err) (α := Point) Err.attributeError =
      Except.error Err.notReadyError := h
  simp at h'

/-- C8, amended: fetching a point before any setup call fails, but with
an AttributeError (the time_last_point attribute is only created by
setup, and line 230 reads it), not with the dedicated NotArmedError. -/
theorem c8_amended_attribute_error (hw : Hw) (iq0 : IQ) (now : ℝ)
    (raw : ℝ × ℝ) :
    get_current_point (initState hw iq0) now raw =
      Except.error Err.attributeError := rfl

/-- C5: get_current_point never divides by a zero amplitude: when the
read-back drive amplitude is exactly zero the call succeeds and the
response is the raw sample scaled by _rescale only; when it is nonzero
the response is additionally divided by the amplitude. -/
theorem c5_zero_amplitude_guard (s : NetworkAnalyzer) (now : ℝ)
    (raw : ℝ × ℝ) (tlp rc : ℝ) (h1 : s.time_last_point = some tlp)
    (h2 : s.rescaleStored = some rc) :
    ∃ p : Point, get_current_point s now raw = .ok p ∧
      p.amp = s.amplitude ∧
      (s.amplitude = 0 → p.y = cmul rc raw) ∧
      (s.amplitude ≠ 0 → p.y = cmul (rc / s.amplitude) raw) := by
  refine ⟨⟨s.iq.frequency,
      if s.amplitude = 0 then cmul rc raw else cmul (rc / s.amplitude) raw,
      s.amplitude,
      if s.time_per_point - (now - tlp) ≥ 0
      then s.time_per_point - (now - tlp) else 0⟩, ?_, rfl, ?_, ?_⟩
  · simp only [get_current_point, h1, h2]
  · intro h; simp [h]
  · intro h; simp [h]

/-- C5 witness: the guard evaluated on the concrete armed state. -/
theorem c5_witness :
    ∃ p : Point, get_current_point sArmed 0 (1, 1) = .ok p ∧
      p.amp = sArmed.amplitude ∧
      (sArmed.amplitude = 0 → p.y = cmul 1 (1, 1)) ∧
      (sArmed.amplitude ≠ 0 → p.y = cmul (1 / sArmed.amplitude) (1, 1)) :=
  c5_zero_amplitude_guard sArmed 0 (1, 1) 0 1 rfl rfl

/-- C3: get_current_point sleeps exactly the nonnegative remainder
time_per_point - (now - time_last_point) and proceeds immediately
(sleeping zero, raising nothing) when the remainder is negative; and
time_per_point is (avg + sleeptimes) divided by the bandwidth stored on
the demodulator - after an rbw write this is the discretized value
hw.qBw r, not the requested r. -/
theorem c3_point_pacing (hw : Hw) (s : NetworkAnalyzer) (r now : ℝ)
    (raw : ℝ × ℝ) (tlp rc : ℝ) (h1 : s.time_last_point = some tlp)
    (h2 : s.rescaleStored = some rc) :
    time_per_point (setRbw hw s r) = (s.avg + s.sleeptimes) / hw.qBw r ∧
    time_per_point s = (s.avg + s.sleeptimes) / s.iq.bandwidth ∧
    ∃ p : Point, get_current_point s now raw = .ok p ∧
      p.slept = (if s.time_per_point - (now - tlp) ≥ 0
                 then s.time_per_point - (now - tlp) else 0) := by
  refine ⟨?_, ?_, ?_⟩
  · simp only [time_per_point, setRbw]
    ring
  · simp only [time_per_point]
    ring
  · refine ⟨⟨s.iq.frequency,
      if s.amplitude = 0 then cmul rc raw else cmul (rc / s.amplitude) raw,
      s.amplitude,
      if s.time_per_point - (now - tlp) ≥ 0
      then s.time_per_point - (now - tlp) else 0⟩, ?_, rfl⟩
    simp only [get_current_point, h1, h2]

/-- C3 witness: the pacing contract evaluated on the concrete armed
state with requested rbw 2. -/
theorem c3_witness :
    time_per_point (setRbw hwId sArmed 2) =
      (sArmed.avg + sArmed.sleeptimes) / hwId.qBw 2 ∧
    time_per_point sArmed =
      (sArmed.avg + sArmed.sleeptimes) / sArmed.iq.bandwidth ∧
    ∃ p : Point, get_current_point sArmed 3 (1, 1) = .ok p ∧
      p.slept = (if sArmed.time_per_point - (3 - 0) ≥ 0
                 then sArmed.time_per_point - (3 - 0) else 0) :=
  c3_point_pacing hwId sArmed 2 3 (1, 1) 0 1 rfl rfl

/-- C6: while the demodulator is driven, every amplitude value the
analyzer pushes stays inside [0, maxamplitude].  Part one: a successful
setup pushes the readback amplitude clipped with the absolute values of
both the amplitude and maxamplitude (source lines 145-149), a value in
[0, |maxamplitude|].  Part two: every successful prepare_for_next_point
pushes a value clipped to at most maxamplitude (source lines 253-255),
and the value is nonnegative whenever the current readback amplitude
and the ceiling are (the stabilized branch can never push at all, since
it raises NameError, see C2). -/
theorem c6_amplitude_bounds :
    (∀ (hw : Hw) (s : NetworkAnalyzer) (o : SetupOpts) (now : ℝ)
        (s' : NetworkAnalyzer), setup hw s o now = .ok s' →
        s'.iq.amplitude = hw.qAmp (min |s'.amplitude| |s'.maxamplitude|) ∧
        0 ≤ min |s'.amplitude| |s'.maxamplitude| ∧
        min |s'.amplitude| |s'.maxamplitude| ≤ |s'.maxamplitude|) ∧
    (∀ (hw : Hw) (s : NetworkAnalyzer) (yv : ℝ × ℝ) (now : ℝ)
        (s' : NetworkAnalyzer) (pushed : ℝ),
        prepare_for_next_point hw s yv now = .ok (s', pushed) →
        s'.iq.amplitude = hw.qAmp pushed ∧
        pushed ≤ s.maxamplitude ∧
        (0 ≤ s.amplitude → 0 ≤ s.maxamplitude → 0 ≤ pushed)) := by
  constructor
  · intro hw s o now s' h
    unfold setup at h
    dsimp only at h
    split at h
    · exact absurd h (by simp)
    · rename_i f rest heq
      rw [Except.ok.injEq] at h
      subst h
      refine ⟨?_, le_min (abs_nonneg _) (abs_nonneg _), min_le_right _ _⟩
      simp only [armFinish, amplitude]
      congr 1
      rw [min_def]
      split_ifs with h1 h2 h2 <;> first | rfl | linarith
  · intro hw s yv now s' pushed h
    unfold prepare_for_next_point at h
    dsimp only at h
    split at h
    · exact absurd h (by simp)
    · split at h
      · exact absurd h (by simp)
      · rename_i cp _
        split at h
        · split at h
          · exact absurd h (by simp)
          · split at h
            · rw [Except.ok.injEq, Prod.mk.injEq] at h
              obtain ⟨hs, hp⟩ := h
              subst hs; subst hp
              refine ⟨rfl, ?_, ?_⟩
              · dsimp only [amplitude]
                split_ifs with hgt
                · exact le_refl _
                · exact not_lt.mp hgt
              · intro ha hm
                dsimp only [amplitude]
                split_ifs <;> assumption
            · exact absurd h (by simp)
        · rw [Except.ok.injEq, Prod.mk.injEq] at h
          obtain ⟨hs, hp⟩ := h
          subst hs; subst hp
          refine ⟨rfl, ?_, ?_⟩
          · dsimp only [amplitude]
            split_ifs with hgt
            · exact le_refl _
            · exact not_lt.mp hgt
          · intro ha hm
            dsimp only [amplitude]
            split_ifs <;> assumption

/-- C6 witness: both clipping facts evaluated concretely, the first on a
default-constructed analyzer set up with a single point, the second on
the concrete armed state. -/
theorem c6_witness :
    (∃ s' : NetworkAnalyzer,
      setup hwId (initState hwId iqInit) { points := some 1 } 0 = .ok s' ∧
      s'.iq.amplitude = hwId.qAmp (min |s'.amplitude| |s'.maxamplitude|) ∧
      0 ≤ min |s'.amplitude| |s'.maxamplitude| ∧
      min |s'.amplitude| |s'.maxamplitude| ≤ |s'.maxamplitude|) ∧
    (∃ (s' : NetworkAnalyzer) (pushed : ℝ),
      prepare_for_next_point hwId sArmed (0, 0) 0 = .ok (s', pushed) ∧
      s'.iq.amplitude = hwId.qAmp pushed ∧
      pushed ≤ sArmed.maxamplitude ∧
      (0 ≤ sArmed.amplitude → 0 ≤ sArmed.maxamplitude → 0 ≤ pushed)) := by
  constructor
  · obtain ⟨s', h⟩ : ∃ s',
        setup hwId (initState hwId iqInit) { points := some 1 } 0 = .ok s' :=
      ⟨_, rfl⟩
    exact ⟨s', h, c6_amplitude_bounds.1 hwId _ _ _ s' h⟩
  · obtain ⟨s', pushed, h⟩ : ∃ s' pushed,
        prepare_for_next_point hwId sArmed (0, 0) 0 = .ok (s', pushed) :=
      ⟨_, _, rfl⟩
    exact ⟨s', pushed, h, c6_amplitude_bounds.2 hwId _ _ _ s' pushed h⟩

/-- C9: setup is a partial-update merge.  For every option, passing none
leaves the corresponding persisted field unchanged, and passing a value
overwrites exactly that field.  The amplitude and rbw options go through
the hardware, so their persisted values are the hardware readbacks of
the passed value (and the arm push re-quantizes the bandwidth once
more); every other field stores the passed value verbatim. -/
theorem c9_setup_merge (hw : Hw) (s : NetworkAnalyzer) (o : SetupOpts)
    (now : ℝ) (s' : NetworkAnalyzer) (h : setup hw s o now = .ok s') :
    s'.start = o.start.getD s.start ∧
    s'.stop = o.stop.getD s.stop ∧
    s'.points = o.points.getD s.points ∧
    s'.avg = o.avg.getD s.avg ∧
    s'.inputSig = o.inputSig.getD s.inputSig ∧
    s'.output_direct = o.output_direct.getD s.output_direct ∧
    s'.acbandwidth = o.acbandwidth.getD s.acbandwidth ∧
    s'.sleeptimes = o.sleeptimes.getD s.sleeptimes ∧
    s'.logscale = o.logscale.getD s.logscale ∧
    s'.stabilize = o.stabilize.getD s.stabilize ∧
    s'.maxamplitude = o.maxamplitude.getD s.maxamplitude ∧
    s'.amplitudeStored = (o.amplitude.map hw.qAmp).getD s.amplitudeStored ∧
    s'.iq.bandwidth = hw.qBw ((o.rbw.map hw.qBw).getD s.iq.bandwidth) := by
  unfold setup at h
  dsimp only at h
  split at h
  · exact absurd h (by simp)
  · rw [Except.ok.injEq] at h
    subst h
    rcases hrw : o.rbw with _ | r <;> rcases ham : o.amplitude with _ | a <;>
      simp [armFinish, mergeConfig, setRbw, setAmplitude, hrw, ham]

/-- C9 witness: the merge equations evaluated on a concrete setup call
that passes every option. -/
theorem c9_witness :
    ∃ s', setup hwId (initState hwId iqInit) oAll 0 = .ok s' ∧
      (s'.start = oAll.start.getD (initState hwId iqInit).start ∧
       s'.stop = oAll.stop.getD (initState hwId iqInit).stop ∧
       s'.points = oAll.points.getD (initState hwId iqInit).points ∧
       s'.avg = oAll.avg.getD (initState hwId iqInit).avg ∧
       s'.inputSig = oAll.inputSig.getD (initState hwId iqInit).inputSig ∧
       s'.output_direct =
         oAll.output_direct.getD (initState hwId iqInit).output_direct ∧
       s'.acbandwidth =
         oAll.acbandwidth.getD (initState hwId iqInit).acbandwidth ∧
       s'.sleeptimes = oAll.sleeptimes.getD (initState hwId iqInit).sleeptimes ∧
       s'.logscale = oAll.logscale.getD (initState hwId iqInit).logscale ∧
       s'.stabilize = oAll.stabilize.getD (initState hwId iqInit).stabilize ∧
       s'.maxamplitude =
         oAll.maxamplitude.getD (initState hwId iqInit).maxamplitude ∧
       s'.amplitudeStored =
         (oAll.amplitude.map hwId.qAmp).getD
           (initState hwId iqInit).amplitudeStored ∧
       s'.iq.bandwidth =
         hwId.qBw ((oAll.rbw.map hwId.qBw).getD
           (initState hwId iqInit).iq.bandwidth)) := by
  obtain ⟨s', h⟩ : ∃ s',
      setup hwId (initState hwId iqInit) oAll 0 = .ok s' := ⟨_, rfl⟩
  exact ⟨s', h, c9_setup_merge hwId _ oAll 0 s' h⟩

lemma linspace_length (a b : ℝ) (n : ℕ) : (linspace a b n).length = n := by
  simp [linspace]

lemma linspace_chain'_diff (a b : ℝ) (n : ℕ) :
    (linspace a b n).Chain' (fun p q => q - p = (b - a) / ((n : ℝ) - 1)) := by
  cases n with
  | zero => simp [linspace]
  | succ m =>
    rw [linspace, List.chain'_map, List.chain'_range_succ]
    intro k _
    push_cast
    ring

lemma linspace_head (a b : ℝ) (n : ℕ) (hn : 1 ≤ n) :
    (linspace a b n).head? = some a := by
  obtain ⟨m, rfl⟩ : ∃ m, n = m + 1 := ⟨n - 1, by omega⟩
  rw [linspace, List.range_succ_eq_map]
  simp

lemma linspace_getLast (a b : ℝ) (n : ℕ) (hn : 2 ≤ n) :
    (linspace a b n).getLast? = some b := by
  have hne : ((n : ℝ) - 1) ≠ 0 := by
    have h2 : (2 : ℝ) ≤ (n : ℝ) := by exact_mod_cast hn
    intro h0
    linarith
  rw [List.getLast?_eq_getElem?, linspace_length, linspace,
    List.getElem?_map, List.getElem?_range (by omega : n - 1 < n)]
  have hcast : ((n - 1 : ℕ) : ℝ) = (n : ℝ) - 1 := by
    push_cast [Nat.cast_sub (by omega : 1 ≤ n)]
    ring
  simp only [Option.map_some', Option.some.injEq, hcast]
  field_simp

lemma linspace_step_nonneg (a b : ℝ) (n : ℕ) (hn : 1 ≤ n) (h : a ≤ b) :
    0 ≤ (b - a) / ((n : ℝ) - 1) := by
  rcases eq_or_lt_of_le hn with h1 | h1
  · rw [← h1]
    norm_num
  · have h2 : (2 : ℝ) ≤ (n : ℝ) := by exact_mod_cast h1
    exact div_nonneg (by linarith) (by linarith)

lemma logb_ten_pow (v : ℝ) : log10 ((10 : ℝ) ^ v) = v :=
  Real.logb_rpow (by norm_num) (by norm_num)

lemma ten_pow_logb (v : ℝ) (hv : 0 < v) : (10 : ℝ) ^ log10 v = v :=
  Real.rpow_logb (by norm_num) (by norm_num) hv

/-- C4, counterexample: with the valid configuration points = 1 (a
positive point count), start = 0, stop = 1, the linear axis is the
single element [0], so its last element is not stop. -/
theorem c4_counterexample :
    (naAxis false 0 1 1).getLast? ≠ some (1 : ℝ) := by
  have hax : naAxis false 0 1 1 =
      [0 + ((0 : ℕ) : ℝ) * ((1 - 0) / (((1 : ℕ) : ℝ) - 1))] := by
    rw [naAxis, if_neg (by simp), linspace]
    rfl
  rw [hax]
  simp

/-- C4, amended: for every configuration with points at least 1 (and
positive bounds in logarithmic mode) the frequency axis has exactly
points elements, begins at start, ends at stop provided points is at
least 2 (with a single point numpy returns [start] and the stop bound is
not reached, which is what the counterexample exhibits), is monotone in
the direction of start to stop, has constant consecutive differences in
linear mode and constant consecutive log10 differences in logarithmic
mode. -/
theorem c4_axis_shape (logscale : Bool) (start stop : ℝ) (points : ℕ)
    (hp : 1 ≤ points) (hlog : logscale = true → 0 < start ∧ 0 < stop) :
    (naAxis logscale start stop points).length = points ∧
    (naAxis logscale start stop points).head? = some start ∧
    (2 ≤ points → (naAxis logscale start stop points).getLast? = some stop) ∧
    (start ≤ stop → (naAxis logscale start stop points).Chain' (· ≤ ·)) ∧
    (stop ≤ start →
      (naAxis logscale start stop points).Chain' (fun p q => q ≤ p)) ∧
    (logscale = false → (naAxis logscale start stop points).Chain'
      (fun p q => q - p = (stop - start) / ((points : ℝ) - 1))) ∧
    (logscale = true → (naAxis logscale start stop points).Chain'
      (fun p q => log10 q - log10 p =
        (log10 stop - log10 start) / ((points : ℝ) - 1))) := by
  cases logscale with
  | false =>
    rw [naAxis, if_neg (by simp)]
    refine ⟨linspace_length start stop points,
            linspace_head start stop points hp, ?_, ?_, ?_, ?_, ?_⟩
    · intro h2
      exact linspace_getLast start stop points h2
    · intro hst
      refine (linspace_chain'_diff start stop points).imp ?_
      intro p q hpq
      have := linspace_step_nonneg start stop points hp hst
      linarith
    · intro hst
      refine (linspace_chain'_diff start stop points).imp ?_
      intro p q hpq
      have := linspace_step_nonneg stop start points hp hst
      have hneg : (stop - start) / ((points : ℝ) - 1) ≤ 0 := by
        have hflip : (stop - start) / ((points : ℝ) - 1) =
            -((start - stop) / ((points : ℝ) - 1)) := by ring
        rw [hflip]
        linarith
      linarith
    · intro _
      exact linspace_chain'_diff start stop points
    · intro h
      exact absurd h (by simp)
  | true =>
    obtain ⟨hs, ht⟩ := hlog rfl
    rw [naAxis, if_pos rfl]
    have hexp : log10 start ≤ log10 stop ∨ log10 stop ≤ log10 start := by
      rcases le_total (log10 start) (log10 stop) with h | h
      · exact Or.inl h
      · exact Or.inr h
    refine ⟨?_, ?_, ?_, ?_, ?_, ?_, ?_⟩
    · rw [logspace, List.length_map, linspace_length]
    · rw [logspace, List.head?_map,
        linspace_head (log10 start) (log10 stop) points hp]
      simp [ten_pow_logb start hs]
    · intro h2
      rw [logspace, List.getLast?_map,
        linspace_getLast (log10 start) (log10 stop) points h2]
      simp [ten_pow_logb stop ht]
    · intro hst
      rw [logspace, List.chain'_map]
      have hle : log10 start ≤ log10 stop :=
        Real.logb_le_logb_of_le (by norm_num) hs hst
      refine (linspace_chain'_diff (log10 start) (log10 stop) points).imp ?_
      intro p q hpq
      have hd := linspace_step_nonneg (log10 start) (log10 stop) points hp hle
      exact Real.rpow_le_rpow_of_exponent_le (by norm_num) (by linarith)
    · intro hst
      rw [logspace, List.chain'_map]
      have hle : log10 stop ≤ log10 start :=
        Real.logb_le_logb_of_le (by norm_num) ht hst
      refine (linspace_chain'_diff (log10 start) (log10 stop) points).imp ?_
      intro p q hpq
      have hd := linspace_step_nonneg (log10 stop) (log10 start) points hp hle
      have hneg : (log10 stop - log10 start) / ((points : ℝ) - 1) ≤ 0 := by
        have hflip : (log10 stop - log10 start) / ((points : ℝ) - 1) =
            -((log10 start - log10 stop) / ((points : ℝ) - 1)) := by ring
        rw [hflip]
        linarith
      exact Real.rpow_le_rpow_of_exponent_le (by norm_num) (by linarith)
    · intro h
      exact absurd h (by simp)
    · intro _
      rw [logspace, List.chain'_map]
      refine (linspace_chain'_diff (log10 start) (log10 stop) points).imp ?_
      intro p q hpq
      rw [logb_ten_pow, logb_ten_pow]
      exact hpq

/-- C4 witness: the amended axis shape facts evaluated on the concrete
linear configuration start 0, stop 1, points 2. -/
theorem c4_witness :
    (naAxis false 0 1 2).length = 2 ∧
    (naAxis false 0 1 2).head? = some 0 ∧
    (2 ≤ 2 → (naAxis false 0 1 2).getLast? = some 1) ∧
    ((0 : ℝ) ≤ 1 → (naAxis false 0 1 2).Chain' (· ≤ ·)) ∧
    ((1 : ℝ) ≤ 0 → (naAxis false 0 1 2).Chain' (fun p q => q ≤ p)) ∧
    (false = false → (naAxis false 0 1 2).Chain'
      (fun p q => q - p = (1 - 0) / (((2 : ℕ) : ℝ) - 1))) ∧
    (false = true → (naAxis false 0 1 2).Chain'
      (fun p q => log10 q - log10 p =
        (log10 1 - log10 0) / (((2 : ℕ) : ℝ) - 1))) :=
  c4_axis_shape false 0 1 2 (by norm_num) (by simp)

lemma prepare_preserves (hw : Hw) (s : NetworkAnalyzer) (yv : ℝ × ℝ)
    (now : ℝ) (s' : NetworkAnalyzer) (p : ℝ)
    (h : prepare_for_next_point hw s yv now = .ok (s', p)) :
    s'.x = s.x ∧ s'.start = s.start ∧ s'.stop = s.stop := by
  unfold prepare_for_next_point at h
  dsimp only at h
  split at h
  · exact absurd h (by simp)
  · split at h
    · exact absurd h (by simp)
    · split at h
      · split at h
        · exact absurd h (by simp)
        · split at h
          · rw [Except.ok.injEq, Prod.mk.injEq] at h
            rw [← h.1]
            exact ⟨rfl, rfl, rfl⟩
          · exact absurd h (by simp)
      · rw [Except.ok.injEq, Prod.mk.injEq] at h
        rw [← h.1]
        exact ⟨rfl, rfl, rfl⟩

lemma valuesAux_state_x (hw : Hw) (tape : ℕ → ℝ) (sam : ℕ → ℝ × ℝ)
    (ab : Option ℕ) :
    ∀ (fuel : ℕ) (s : NetworkAnalyzer) (t n : ℕ)
      (acc : List (ℝ × (ℝ × ℝ) × ℝ)),
      (valuesAux hw tape sam ab fuel s t n acc).state.x = s.x := by
  intro fuel
  induction fuel with
  | zero =>
    intro s t n acc
    rw [valuesAux]
    split
    · rfl
    · split <;> rfl
  | succ f ih =>
    intro s t n acc
    rw [valuesAux]
    split
    · rfl
    · split
      · split
        · rfl
        · rename_i g hg
          dsimp only
          rcases hprep : prepare_for_next_point hw s g.y
              (tape (if s.start = s.stop then t + 2 else t + 1))
            with e | ⟨s', p⟩
          · simp only [hprep]
          · simp only [hprep]
            have hx := (prepare_preserves hw s g.y _ s' p hprep).1
            split <;> split
            · exact hx
            · rw [ih]
              exact hx
            · exact hx
            · rw [ih]
              exact hx
      · rfl

/-- C1: on every exit path of a values() run - normal completion of all
points, early abandonment by the consumer after any number of yields,
and any exception propagating out of the loop body - the finally clause
pushes amplitude 0 and the first axis frequency to the demodulator, so
the final hardware state has amplitude hw.qAmp 0 and frequency
hw.qFreq of the first axis point. -/
theorem c1_generator_cleanup (hw : Hw) (tape : ℕ → ℝ) (sam : ℕ → ℝ × ℝ)
    (ab : Option ℕ) (s : NetworkAnalyzer) (t0 : ℕ) (f : ℝ)
    (rest : List ℝ) (hx : s.x = some (f :: rest)) :
    ∃ sf, (valuesRun hw tape sam ab s t0).final = .ok sf ∧
      sf.iq.amplitude = hw.qAmp 0 ∧ sf.iq.frequency = hw.qFreq f := by
  have hxx := valuesAux_state_x hw tape sam ab s.points s t0 0 []
  rw [hx] at hxx
  unfold valuesRun finallyClause
  dsimp only
  rw [hxx]
  exact ⟨_, rfl, rfl, rfl⟩

/-- C1 witness: the cleanup evaluated on a concrete run of the armed
state that completes normally. -/
theorem c1_witness :
    ∃ sf, (valuesRun hwId (fun i : ℕ => (i : ℝ)) (fun _ => (0, 0)) none
        sArmed 0).final = .ok sf ∧
      sf.iq.amplitude = hwId.qAmp 0 ∧ sf.iq.frequency = hwId.qFreq 0 :=
  c1_generator_cleanup hwId (fun i : ℕ => (i : ℝ)) (fun _ => (0, 0)) none
    sArmed 0 0 [] rfl

lemma valuesAux_zero_span (hw : Hw) (tape : ℕ → ℝ) (sam : ℕ → ℝ × ℝ)
    (ab : Option ℕ) :
    ∀ (fuel : ℕ) (s : NetworkAnalyzer) (t n : ℕ)
      (acc : List (ℝ × (ℝ × ℝ) × ℝ)), s.start = s.stop →
      ∃ L, (valuesAux hw tape sam ab fuel s t n acc).yields =
          acc.reverse ++ L ∧
        L.map Prod.fst =
          (List.range L.length).map (fun k => tape (t + 1 + 3 * k)) := by
  intro fuel
  induction fuel with
  | zero =>
    intro s t n acc hzs
    rw [valuesAux]
    split
    · exact ⟨[], by simp, by simp⟩
    · split
      · exact ⟨[], by simp, by simp⟩
      · exact ⟨[], by simp, by simp⟩
  | succ f ih =>
    intro s t n acc hzs
    rw [valuesAux]
    split
    · exact ⟨[], by simp, by simp⟩
    · split
      · split
        · exact ⟨[], by simp, by simp⟩
        · rename_i g hg
          dsimp only
          rcases hprep : prepare_for_next_point hw s g.y (tape (t + 2))
            with e | ⟨s', p⟩
          · simp only [hprep]
            exact ⟨[], by simp, by simp⟩
          · simp only [hprep]
            have hzs' : s'.start = s'.stop := by
              have hpres := prepare_preserves hw s g.y _ s' p hprep
              rw [hpres.2.1, hpres.2.2]
              exact hzs
            split
            · refine ⟨[(tape (t + 1), g.y, g.amp)], ?_, ?_⟩
              · simp
              · simp [List.range_succ]
            · obtain ⟨L', hL1, hL2⟩ := ih s' (t + 2 + 1) (n + 1)
                ((tape (t + 1), g.y, g.amp) :: acc) hzs'
              refine ⟨(tape (t + 1), g.y, g.amp) :: L', ?_, ?_⟩
              · rw [hL1]
                simp
              · simp only [List.map_cons, List.length_cons]
                rw [List.range_succ_eq_map]
                simp only [List.map_cons, List.map_map]
                refine congrArg₂ List.cons ?_ ?_
                · rw [Nat.mul_zero, Nat.add_zero]
                · rw [hL2]
                  refine List.map_congr_left ?_
                  intro k _
                  simp only [Function.comp_apply]
                  refine congrArg tape ?_
                  omega
      · exact ⟨[], by simp, by simp⟩

/-- C7: in zero-span mode (start = stop) the first component of every
yielded triple is the wall-clock value read by the time() call of source
line 283 - the k-th yield reads the tape at index t0 + 1 + 3k, the
second of the three time() calls of iteration k - and with a strictly
increasing clock the reported values are strictly increasing timestamps
rather than copies of the configured frequency. -/
theorem c7_zero_span_timestamps (hw : Hw) (tape : ℕ → ℝ)
    (sam : ℕ → ℝ × ℝ) (ab : Option ℕ) (s : NetworkAnalyzer) (t0 : ℕ)
    (hzs : s.start = s.stop) (hmono : StrictMono tape) :
    (valuesRun hw tape sam ab s t0).yields.map Prod.fst =
      (List.range ((valuesRun hw tape sam ab s t0).yields.length)).map
        (fun k => tape (t0 + 1 + 3 * k)) ∧
    ((valuesRun hw tape sam ab s t0).yields.map Prod.fst).Chain'
      (· < ·) := by
  obtain ⟨L, hL1, hL2⟩ :=
    valuesAux_zero_span hw tape sam ab s.points s t0 0 [] hzs
  have hyields : (valuesRun hw tape sam ab s t0).yields = L := by
    unfold valuesRun
    dsimp only
    rw [hL1]
    simp
  rw [hyields, hL2]
  refine ⟨rfl, ?_⟩
  have hpair : (List.range L.length).Pairwise (· < ·) :=
    List.pairwise_lt_range _
  have hmapped : ((List.range L.length).map
      (fun k => tape (t0 + 1 + 3 * k))).Pairwise (· < ·) := by
    refine List.Pairwise.map _ ?_ hpair
    intro a b hab
    exact hmono (by omega)
  exact hmapped.chain'

/-- C7 witness: the timestamp law evaluated on a concrete zero-span run
with the identity clock. -/
theorem c7_witness :
    (valuesRun hwId (fun i : ℕ => (i : ℝ)) (fun _ => (0, 0)) none
        sArmed 0).yields.map Prod.fst =
      (List.range ((valuesRun hwId (fun i : ℕ => (i : ℝ)) (fun _ => (0, 0))
          none sArmed 0).yields.length)).map
        (fun k => ((0 + 1 + 3 * k : ℕ) : ℝ)) ∧
    ((valuesRun hwId (fun i : ℕ => (i : ℝ)) (fun _ => (0, 0)) none
        sArmed 0).yields.map Prod.fst).Chain' (· < ·) :=
  c7_zero_span_timestamps hwId (fun i : ℕ => (i : ℝ)) (fun _ => (0, 0))
    none sArmed 0 rfl Nat.strictMono_cast

end NetworkAnalyzer
